import Mathlib

/-!
A verification development for `memcachepool/cache.py` of django-memcached-pool.

Shallow embedding conventions:
* `time.time()` values are integers (`Int`), passed explicitly as a `now` argument.
* The blacklist dictionary `self._blacklist` is a function `Server → Option Int`
  (absent key ⇔ `none`), matching Python `dict` semantics.
* `random.choice(choices)` is modelled by indexing with `r % choices.length`
  for an external randomness oracle `r : Nat`; a stream `rs : Nat → Nat` feeds
  successive calls.
* Raising an exception is modelled with `Except`; `socket.timeout` and
  `socket.error` are the two constructors of `SockErr`.
* The external driver (umemcache et al.) is an oracle: `connect` outcomes,
  `conn.get`/`conn.incr`/`conn.decr` results are parameters of the embedded
  operations, constrained only where the spec constrains the driver.
* The `while` loop of `_get_client` is embedded with explicit fuel; the fuel
  given by the top-level `_get_client` is shown sufficient in the theorems
  that need it.
-/

namespace Memcachepool

/-- Server addresses (host:port strings in Python) are opaque ids, modelled as `Nat`. -/
abbrev Server := Nat

/-- The two exception shapes caught by `_get_client`:
`socket.timeout` (with a message) and `socket.error` (with an errno). -/
inductive SockErr where
  | timeout (msg : String)
  | error (eno : Int)
deriving DecidableEq

/-- `errno.ECONNREFUSED` (value 111 on Linux). -/
def ECONNREFUSED : Int := 111

/-- The classification done by the except-clause of `_get_client`:
an exception is retried exactly when it is a `socket.timeout`, or a
`socket.error` whose errno equals `ECONNREFUSED`; any other `socket.error`
is re-raised. -/
def retryable : SockErr → Bool
  | SockErr.timeout _ => true
  | SockErr.error eno => decide (eno = ECONNREFUSED)

/-- The expiry pass at the top of `_pick_server`: every blacklist entry whose
age exceeds `blacklist_time` is deleted (`if time.time() - age > self.blacklist_time: del ...`). -/
def update_blacklist (bt now : Int) (bl : Server → Option Int) : Server → Option Int :=
  fun s =>
    match bl s with
    | some age => if now - age > bt then none else some age
    | none => none

/-- `choices = [server for server in self._servers if server not in self._blacklist]`,
evaluated against the already-updated blacklist. -/
def pick_choices (servers : List Server) (bl : Server → Option Int) : List Server :=
  servers.filter (fun s => (bl s).isNone)

/-- `_pick_server`: update the blacklist, compute `choices`, return `None` when
`choices == []` and otherwise `random.choice(choices)` (randomness oracle `r`).
The updated blacklist is returned as the second component (in Python this is a
mutation of `self._blacklist`). -/
def _pick_server (bt now : Int) (r : Nat) (servers : List Server)
    (bl : Server → Option Int) : Option Server × (Server → Option Int) :=
  let bl2 := update_blacklist bt now bl
  let choices := pick_choices servers bl2
  if h : choices = [] then (none, bl2)
  else
    (some (choices.get ⟨r % choices.length, Nat.mod_lt r (List.length_pos.mpr h)⟩), bl2)

/-- `_blacklist_server`: `self._blacklist[server] = time.time()`. -/
def _blacklist_server (now : Int) (bl : Server → Option Int) (server : Server) :
    Server → Option Int :=
  fun s => if s = server then some now else bl s

/-- A driver client, reduced to the observables the claims speak about:
the server it was constructed for and the socket timeout in force for it. -/
structure Client where
  server : Server
  timeout : Int
deriving DecidableEq

/-- Outcome of one run of `_get_client`'s retry loop: the returned client or
the raised exception, the list of servers a connection attempt was made to
(in order), and the final blacklist state. -/
structure LoopOut where
  result : Except SockErr Client
  attempts : List Server
  bl : Server → Option Int

/-- The `while server is not None:` loop of `_get_client`.
`fac env arg` models `create_client(arg)` where `env` is the value of the
enclosing variable `server` at call time (the fallback branch closes over it);
the loop calls `fac server server` exactly as the source calls
`create_client(server)`. `connect s` is the outcome of `cli.connect()` for a
client bound to `s` (`none` = success). Fuel is explicit; the fuel-exhausted
arm is unreachable for the fuel supplied by `_get_client` under the
hypotheses of the theorems below. -/
def get_client_loop (fac : Server → Server → Client) (connect : Server → Option SockErr)
    (bt now : Int) (servers : List Server) (rs : Nat → Nat) :
    Nat → Nat → Option Server → (Server → Option Int) → Option SockErr → LoopOut
  | _fuel, _k, none, bl, lastErr =>
    -- loop exit: `raise last_error` when one was recorded, else
    -- `raise socket.timeout('No server left in the pool')`
    ⟨Except.error (lastErr.getD (SockErr.timeout "No server left in the pool")), [], bl⟩
  | 0, _k, some _server, bl, _lastErr =>
    ⟨Except.error (SockErr.timeout "out of fuel"), [], bl⟩
  | Nat.succ fuel, k, some server, bl, lastErr =>
    let cli := fac server server
    match connect server with
    | none => ⟨Except.ok cli, [server], bl⟩
    | some e =>
      if retryable e then
        -- blacklist this server, pick again, record the error, loop
        let bl1 := _blacklist_server now bl server
        let pk := _pick_server bt now (rs k) servers bl1
        let out := get_client_loop fac connect bt now servers rs fuel (k + 1) pk.1 pk.2 (some e)
        ⟨out.result, server :: out.attempts, out.bl⟩
      else
        -- unmanaged case: re-raise
        ⟨Except.error e, [server], bl⟩

/-- `_get_client`: initial `_pick_server()` then the retry loop.
`servers.length + 1` units of fuel always cover the loop under the theorems'
hypotheses (each failing iteration strictly shrinks the choice set). -/
def _get_client (fac : Server → Server → Client) (connect : Server → Option SockErr)
    (bt now : Int) (servers : List Server) (rs : Nat → Nat)
    (bl0 : Server → Option Int) : LoopOut :=
  let pk := _pick_server bt now (rs 0) servers bl0
  get_client_loop fac connect bt now servers rs (servers.length + 1) 1 pk.1 pk.2 none

/-! ## The two `create_client` factories of `_get_client` -/

/-- The branch taken when `self._lib.Client` has a per-instance `sock`
attribute: build the client for the parameter and set its socket timeout. -/
def create_client_sock (socktimeout : Int) (server : Server) : Client :=
  ⟨server, socktimeout⟩

/-- The fallback branch: the formal parameter is named `client` and is never
used; the client is built for the enclosing scope's `server` variable, and the
temporary process-wide default timeout gives it the same effective timeout. -/
def create_client_nosock (socktimeout : Int) (server : Server) (client : Server) : Client :=
  ⟨server, socktimeout⟩

/-- Process-wide mutable state of the `socket` module, as visible to this code:
the default socket timeout plus an opaque remainder standing for every other
global. -/
structure SocketModule where
  defaulttimeout : Option Int
  otherState : Nat
deriving DecidableEq

/-- `socket.getdefaulttimeout()`. -/
def getdefaulttimeout (g : SocketModule) : Option Int := g.defaulttimeout

/-- `socket.setdefaulttimeout(t)`. -/
def setdefaulttimeout (g : SocketModule) (t : Option Int) : SocketModule :=
  { g with defaulttimeout := t }

/-- The fallback `create_client` with its global-state manipulation made
explicit: save the old default, set it to `socktimeout`, run the constructor
(`ctor` sees the default timeout in force and may raise, which `Except.error`
models), and restore the old default in the `finally` on both exit paths. -/
def create_client_fallback (socktimeout : Int)
    (ctor : Option Int → Except String Client) (g : SocketModule) :
    Except String Client × SocketModule :=
  let old := getdefaulttimeout g
  let g1 := setdefaulttimeout g (some socktimeout)
  let r := ctor (getdefaulttimeout g1)
  let g2 := setdefaulttimeout g1 old
  (r, g2)

/-! ## Python dict model for the operation layer

`get_many` builds and consumes Python dicts; they are modelled as association
lists with first-occurrence update (`dset`) and first-occurrence lookup
(`dget`), which agrees with `dict` since the construction below never creates
a duplicate key. -/

section Dict

variable {κ ν : Type} [DecidableEq κ]

/-- `d[k] = v` on a Python dict: replace the entry for `k`, or append one. -/
def dset : List (κ × ν) → κ → ν → List (κ × ν)
  | [], k, v => [(k, v)]
  | p :: d, k, v => if p.1 = k then (k, v) :: d else p :: dset d k v

/-- `d[k]` / `d.get(k)` on a Python dict. -/
def dget : List (κ × ν) → κ → Option ν
  | [], _ => none
  | p :: d, k => if p.1 = k then some p.2 else dget d k

end Dict

/-! ## Serialization and the operation layer -/

/-- Modelled from the spec: values are pickled to bytes by the external
`pickle` library; the spec treats this as an opaque `encode/decode` pair with
`decode (encode v) = v`, so serialized bytes are modelled as a wrapper around
the value. -/
inductive SBytes (V : Type) where
  | pickled : V → SBytes V
deriving DecidableEq

/-- `serialize(data) = pickle.dumps(data)`. -/
def serialize {V : Type} (data : V) : SBytes V := SBytes.pickled data

/-- `unserialize(data) = pickle.loads(data)`. -/
def unserialize {V : Type} : SBytes V → V
  | SBytes.pickled v => v

section Ops

variable {K V : Type} [DecidableEq K] [DecidableEq V]

/-- `get`: namespace the key, fetch from the leased connection (the driver
returns a `(value, flags)` pair or `None`; an I/O failure raised by the driver
propagates, modelled by `Except.error`), return the default on a miss and the
unserialized first component on a hit. -/
def get (mk : K → Option Nat → String)
    (conn_get : String → Except String (Option (SBytes V × Nat)))
    (key : K) (default : V) (version : Option Nat) : Except String V :=
  match conn_get (mk key version) with
  | Except.error e => Except.error e
  | Except.ok none => Except.ok default
  | Except.ok (some val) => Except.ok (unserialize val.1)

/-- `set`: serialize the value, namespace the key, and store through the
leased connection. The driver is the faithful store of the spec: it records
exactly the written bytes under the namespaced key (flags modelled as 0; the
memcache timeout argument does not affect the stored bytes and is omitted). -/
def set (mk : K → Option Nat → String) (st : String → Option (SBytes V × Nat))
    (key : K) (value : V) (version : Option Nat) : String → Option (SBytes V × Nat) :=
  fun nk => if nk = mk key version then some (serialize value, 0) else st nk

/-- What the `try` block of `incr`/`decr` observes from the driver call:
a returned value (possibly the `None` sentinel) or the library's
value-not-found exception. -/
inductive LibOutcome (α : Type) where
  | ok : Option α → LibOutcome α
  | notFoundExc : LibOutcome α
deriving DecidableEq

/-- Which of the spec's heterogeneous shapes the underlying library uses to
signal a missing key on `incr`/`decr`. -/
inductive NotFoundStyle where
  | raiseExc
  | returnNone
deriving DecidableEq

/-- Modelled from the spec: the external driver's `incr` — on a present key it
returns the new counter value, on a missing key it either raises the library's
value-not-found exception or returns the `None` sentinel, per its style. -/
def lib_incr (style : NotFoundStyle) (store : String → Option Nat)
    (nkey : String) (delta : Nat) : LibOutcome Nat :=
  match store nkey with
  | some v => LibOutcome.ok (some (v + delta))
  | none =>
    match style with
    | NotFoundStyle.raiseExc => LibOutcome.notFoundExc
    | NotFoundStyle.returnNone => LibOutcome.ok none

/-- Modelled from the spec: the external driver's `decr` (memcached decrement
floors at zero, hence truncated subtraction). -/
def lib_decr (style : NotFoundStyle) (store : String → Option Nat)
    (nkey : String) (delta : Nat) : LibOutcome Nat :=
  match store nkey with
  | some v => LibOutcome.ok (some (v - delta))
  | none =>
    match style with
    | NotFoundStyle.raiseExc => LibOutcome.notFoundExc
    | NotFoundStyle.returnNone => LibOutcome.ok none

/-- `incr`: namespace the key, call the driver inside a `try` whose except
clause turns `LibraryValueNotFoundException` into `val = None`; then a `None`
value raises `ValueError("Key ... not found")` (modelled as `Except.error`)
and any other value is returned. -/
def incr (mk : K → Option Nat → String) (conn_incr : String → Nat → LibOutcome Nat)
    (key : K) (delta : Nat) (version : Option Nat) : Except String Nat :=
  let nkey := mk key version
  let val : Option Nat :=
    match conn_incr nkey delta with
    | LibOutcome.notFoundExc => none
    | LibOutcome.ok v => v
  match val with
  | none => Except.error ("Key " ++ nkey ++ " not found")
  | some v => Except.ok v

/-- `decr`: identical shape to `incr` with the driver's `decr`. -/
def decr (mk : K → Option Nat → String) (conn_decr : String → Nat → LibOutcome Nat)
    (key : K) (delta : Nat) (version : Option Nat) : Except String Nat :=
  let nkey := mk key version
  let val : Option Nat :=
    match conn_decr nkey delta with
    | LibOutcome.notFoundExc => none
    | LibOutcome.ok v => v
  match val with
  | none => Except.error ("Key " ++ nkey ++ " not found")
  | some v => Except.ok v

/-- The body of `get_many`'s first loop: `res = conn.get(key)`; skip on
`None`, else `ret[key] = res[0]`. -/
def ret_step (store : String → Option (SBytes V × Nat))
    (acc : List (String × SBytes V)) (key : String) : List (String × SBytes V) :=
  match store key with
  | none => acc
  | some res => dset acc key res.1

/-- The body of `get_many`'s second loop: `res[m[k]] = unserialize(v)`.
The `none` arm is unreachable (every key of `ret` is a key of `m`); Python
would raise `KeyError` there. -/
def res_step (m : List (String × K)) (res : List (K × V))
    (kv : String × SBytes V) : List (K × V) :=
  match dget m kv.1 with
  | some orig => dset res orig (unserialize kv.2)
  | none => res

/-- `get_many`: namespace all keys, collect present `(namespaced key, bytes)`
pairs into the dict `ret`, and when `ret` is non-empty translate it back
through `m = dict(zip(new_keys, keys))`, unserializing each value. The
`keys == {}` guard of the source compares a list with a dict and is `False`
for every list argument, and both exits return the empty dict on no hits, so
it is not modelled separately. -/
def get_many (mk : K → Option Nat → String) (store : String → Option (SBytes V × Nat))
    (keys : List K) (version : Option Nat) : List (K × V) :=
  let new_keys := keys.map (fun x => mk x version)
  let ret : List (String × SBytes V) := new_keys.foldl (ret_step store) []
  if ret.isEmpty then []
  else
    let m : List (String × K) :=
      (new_keys.zip keys).foldl (fun acc p => dset acc p.1 p.2) []
    ret.foldl (res_step m) []

end Ops

/-! ## Claim theorems -/

/-- C7: `get(key, default, version)` returns the caller-supplied default
whenever the driver reports no value (`None`) for the namespaced key, and
otherwise returns the unserialized stored bytes; a cache miss never raises —
only I/O/server failures propagate (unchanged). -/
theorem C7_get_default_on_miss {K V : Type}
    (mk : K → Option Nat → String)
    (conn_get : String → Except String (Option (SBytes V × Nat)))
    (key : K) (d : V) (version : Option Nat) :
    (conn_get (mk key version) = Except.ok none →
      get mk conn_get key d version = Except.ok d)
    ∧ (∀ val, conn_get (mk key version) = Except.ok (some val) →
      get mk conn_get key d version = Except.ok (unserialize val.1))
    ∧ (∀ e, conn_get (mk key version) = Except.error e →
      get mk conn_get key d version = Except.error e) := by
  refine ⟨?_, ?_, ?_⟩ <;> intros <;> simp [get, *]

/-- Witness for C7 at a concrete miss: the driver finds nothing and the
default `37` comes back. -/
theorem C7_get_default_on_miss_witness :
    get (V := Nat) (fun (_ : Nat) (_ : Option Nat) => "nk") (fun _ => Except.ok none)
      0 37 none = Except.ok 37 :=
  (C7_get_default_on_miss (fun (_ : Nat) (_ : Option Nat) => "nk")
    (fun _ => Except.ok none) 0 37 none).1 rfl

/-- C8: for every key and serializable value, `set` then `get` with the same
version, against a driver that faithfully stores and returns the written
bytes, returns a value equal to the one written: unserialize after serialize
through the store is the identity. -/
theorem C8_set_get_roundtrip {K V : Type} [DecidableEq K]
    (mk : K → Option Nat → String) (st : String → Option (SBytes V × Nat))
    (key : K) (value : V) (d : V) (version : Option Nat) :
    get mk (fun nk => Except.ok (set mk st key value version nk)) key d version
      = Except.ok value := by
  simp [get, set, serialize, unserialize]

/-- C9: the fallback factory branch sets the process-wide default socket
timeout to `socktimeout` exactly for the construction call, restores the
previous default on every exit path — including when construction raises —
and modifies no other global state. -/
theorem C9_fallback_restores_default_timeout (t : Int)
    (ctor : Option Int → Except String Client) (g : SocketModule) :
    (create_client_fallback t ctor g).2 = g
    ∧ (create_client_fallback t ctor g).1 = ctor (some t)
    ∧ ((create_client_fallback t ctor g).2).defaulttimeout = g.defaulttimeout
    ∧ ((create_client_fallback t ctor g).2).otherState = g.otherState
    ∧ (∀ e, ctor (some t) = Except.error e →
        create_client_fallback t ctor g = (Except.error e, g)) := by
  refine ⟨rfl, rfl, rfl, rfl, ?_⟩
  intro e he
  simp [create_client_fallback, getdefaulttimeout, setdefaulttimeout, he]

/-- Witness for C9 at a raising constructor: the error propagates and the
socket module state is exactly the original one. -/
theorem C9_fallback_restores_default_timeout_witness :
    create_client_fallback 4 (fun _ => Except.error "boom") ⟨some 9, 5⟩
      = (Except.error "boom", ⟨some 9, 5⟩) :=
  (C9_fallback_restores_default_timeout 4 (fun _ => Except.error "boom")
    ⟨some 9, 5⟩).2.2.2.2 "boom" rfl

/-- C5: for every key that does not exist in the cache, `incr` and `decr`
raise the one normalized not-found `ValueError`, whether the driver signals
the missing key by raising the library's value-not-found exception or by
returning the `None` sentinel; when the driver returns a non-`None` value,
that value is returned as the new counter value. -/
theorem C5_incr_decr_notfound_normalized {K : Type}
    (mk : K → Option Nat → String) (store : String → Option Nat)
    (key : K) (delta : Nat) (version : Option Nat) (style : NotFoundStyle) :
    (store (mk key version) = none →
      incr mk (lib_incr style store) key delta version
          = Except.error ("Key " ++ mk key version ++ " not found")
      ∧ decr mk (lib_decr style store) key delta version
          = Except.error ("Key " ++ mk key version ++ " not found"))
    ∧ (∀ v, store (mk key version) = some v →
      incr mk (lib_incr style store) key delta version = Except.ok (v + delta)
      ∧ decr mk (lib_decr style store) key delta version = Except.ok (v - delta)) := by
  constructor
  · intro h
    cases style <;> simp [incr, decr, lib_incr, lib_decr, h]
  · intro v h
    cases style <;> simp [incr, decr, lib_incr, lib_decr, h]

/-- Witness for C5: on an empty store with the exception-raising driver style,
`incr` yields the normalized not-found error. -/
theorem C5_incr_decr_notfound_normalized_witness :
    incr (fun (_ : Nat) (_ : Option Nat) => "nk")
        (lib_incr NotFoundStyle.raiseExc (fun _ => none)) 0 1 none
      = Except.error "Key nk not found" :=
  ((C5_incr_decr_notfound_normalized (fun (_ : Nat) (_ : Option Nat) => "nk")
    (fun _ => none) 0 1 none NotFoundStyle.raiseExc).1 rfl).1

/-- C4: a server blacklisted at `T` is excluded from `_pick_server`'s choices
at every evaluation with `t - T ≤ blacklist_time`, its entry is removed (and
it becomes eligible again, when configured) at the first evaluation with
`t - T > blacklist_time`, and re-blacklisting overwrites the timestamp so the
exclusion window is refreshed, not stacked. -/
theorem C4_blacklist_window (bt : Int) (bl : Server → Option Int)
    (servers : List Server) (s : Server) (T : Int) (hT : bl s = some T) :
    (∀ t, t - T ≤ bt → s ∉ pick_choices servers (update_blacklist bt t bl))
    ∧ (∀ t, t - T > bt → update_blacklist bt t bl s = none
        ∧ (s ∈ servers → s ∈ pick_choices servers (update_blacklist bt t bl)))
    ∧ (∀ T2, _blacklist_server T2 bl s s = some T2)
    ∧ (∀ T2 t, update_blacklist bt t (_blacklist_server T2 bl s) s
        = if t - T2 > bt then none else some T2) := by
  refine ⟨?_, ?_, ?_, ?_⟩
  · intro t ht hmem
    have hval : update_blacklist bt t bl s = some T := by
      simp [update_blacklist, hT, not_lt.mpr ht]
    have := (List.mem_filter.mp hmem).2
    rw [hval] at this
    simp at this
  · intro t ht
    have hval : update_blacklist bt t bl s = none := by
      simp [update_blacklist, hT, ht]
    exact ⟨hval, fun hs => List.mem_filter.mpr ⟨hs, by simp [hval]⟩⟩
  · intro T2
    simp [_blacklist_server]
  · intro T2 t
    simp [update_blacklist, _blacklist_server]

/-- Witness for C4: server 0 blacklisted at time 10 is still excluded at time
20 with a 60-second window. -/
theorem C4_blacklist_window_witness :
    0 ∉ pick_choices [0]
      (update_blacklist 60 20 (fun s => if s = 0 then some 10 else none)) :=
  (C4_blacklist_window 60 (fun s => if s = 0 then some 10 else none)
    [0] 0 10 rfl).1 20 (by decide)

/-- Over a list, the residues hitting each value under positional indexing are
counted exactly by `count`: uniform sampling of an index is uniform sampling
of the list. -/
theorem count_filter_range (xs : List Nat) (v : Nat) :
    ((List.range xs.length).filter (fun i => decide (xs[i]? = some v))).length
      = xs.count v := by
  induction xs with
  | nil => simp
  | cons a t ih =>
    have hmap : (List.filter (fun i => decide ((a :: t)[i]? = some v))
          ((List.range t.length).map Nat.succ))
        = ((List.range t.length).filter (fun i => decide (t[i]? = some v))).map Nat.succ := by
      rw [List.filter_map]
      congr 1
      apply List.filter_congr
      intro i _
      simp [Function.comp]
    rw [List.length_cons, List.range_succ_eq_map, List.filter_cons, hmap]
    by_cases hav : a = v
    · subst hav
      simp [List.count_cons, ih]
    · simp [List.count_cons, ih, hav, Ne.symm hav]

/-- Emptiness of the choice list means every configured server still has an
unexpired blacklist entry after the expiry pass. -/
theorem pick_choices_eq_nil_iff (bt now : Int) (servers : List Server)
    (bl : Server → Option Int) :
    pick_choices servers (update_blacklist bt now bl) = []
      ↔ ∀ s ∈ servers, ((update_blacklist bt now bl) s).isSome = true := by
  unfold pick_choices
  rw [List.filter_eq_nil_iff]
  constructor
  · intro h s hs
    have hx := h s hs
    cases hv : (update_blacklist bt now bl) s <;> simp [hv] at hx ⊢
  · intro h s hs
    have hx := h s hs
    cases hv : (update_blacklist bt now bl) s <;> simp [hv] at hx ⊢

/-- C3: `_pick_server` returns `None` iff, after expiry evaluation, every
configured server has an unexpired blacklist entry; otherwise it returns a
configured, non-blacklisted server, selected uniformly at random from the
choice list (each element is hit by exactly `count` of the residues of the
randomness oracle). -/
theorem C3_pick_server_spec (bt now : Int) (r : Nat) (servers : List Server)
    (bl : Server → Option Int) :
    ((_pick_server bt now r servers bl).1 = none ↔
      ∀ s ∈ servers, ((update_blacklist bt now bl) s).isSome = true)
    ∧ (∀ s, (_pick_server bt now r servers bl).1 = some s →
        s ∈ servers ∧ update_blacklist bt now bl s = none)
    ∧ (∀ v, ((List.range (pick_choices servers (update_blacklist bt now bl)).length).filter
          (fun i => decide ((_pick_server bt now i servers bl).1 = some v))).length
        = (pick_choices servers (update_blacklist bt now bl)).count v) := by
  refine ⟨?_, ?_, ?_⟩
  · by_cases hc : pick_choices servers (update_blacklist bt now bl) = []
    · refine ⟨fun _ => (pick_choices_eq_nil_iff bt now servers bl).mp hc, fun _ => ?_⟩
      simp [_pick_server, hc]
    · simp only [_pick_server, dif_neg hc]
      constructor
      · intro h
        exact absurd h (by simp)
      · intro hR
        exact absurd ((pick_choices_eq_nil_iff bt now servers bl).mpr hR) hc
  · intro s hsome
    by_cases hc : pick_choices servers (update_blacklist bt now bl) = []
    · simp [_pick_server, hc] at hsome
    · simp only [_pick_server, dif_neg hc, Option.some.injEq] at hsome
      have hmem : s ∈ pick_choices servers (update_blacklist bt now bl) := by
        rw [← hsome]
        exact List.get_mem _ _ _
      have h2 := (List.mem_filter.mp hmem).2
      refine ⟨(List.mem_filter.mp hmem).1, ?_⟩
      cases hv : (update_blacklist bt now bl) s <;> simp [hv] at h2 ⊢
  · intro v
    by_cases hc : pick_choices servers (update_blacklist bt now bl) = []
    · simp [hc]
    · have hcong : ∀ i ∈ List.range (pick_choices servers (update_blacklist bt now bl)).length,
          decide ((_pick_server bt now i servers bl).1 = some v)
            = decide ((pick_choices servers (update_blacklist bt now bl))[i]? = some v) := by
        intro i hi
        have hlt : i < (pick_choices servers (update_blacklist bt now bl)).length :=
          List.mem_range.mp hi
        have hpick : (_pick_server bt now i servers bl).1
            = some (pick_choices servers (update_blacklist bt now bl))[i] := by
          simp only [_pick_server, dif_neg hc]
          congr 1
          rw [List.get_eq_getElem]
          congr 1
          exact Nat.mod_eq_of_lt hlt
        rw [hpick, List.getElem?_eq_getElem hlt]
      rw [List.filter_congr hcong, count_filter_range]

/-- Witness for C3: with servers `[7]` and an empty blacklist, the pick is
`7`, which is configured and unblacklisted. -/
theorem C3_pick_server_spec_witness :
    7 ∈ ([7] : List Server)
      ∧ update_blacklist 60 0 (fun _ => none) 7 = none :=
  (C3_pick_server_spec 60 0 0 [7] (fun _ => none)).2.1 7 rfl

/-- C1: during connection creation, a `connect()` failure that is a socket
timeout or a socket error with errno `ECONNREFUSED` blacklists the failing
server and picks a new server for another attempt; any other socket error is
re-raised immediately (sole attempt, blacklist untouched). -/
theorem C1_connect_error_classification
    (fac : Server → Server → Client) (connect : Server → Option SockErr)
    (bt now : Int) (servers : List Server) (rs : Nat → Nat)
    (fuel k : Nat) (server : Server) (bl : Server → Option Int)
    (lastErr : Option SockErr) :
    (∀ eno, connect server = some (SockErr.error eno) → eno ≠ ECONNREFUSED →
      get_client_loop fac connect bt now servers rs (fuel + 1) k (some server) bl lastErr
        = ⟨Except.error (SockErr.error eno), [server], bl⟩)
    ∧ (∀ e, connect server = some e → retryable e = true →
      get_client_loop fac connect bt now servers rs (fuel + 1) k (some server) bl lastErr
        = ⟨(get_client_loop fac connect bt now servers rs fuel (k + 1)
              (_pick_server bt now (rs k) servers (_blacklist_server now bl server)).1
              (_pick_server bt now (rs k) servers (_blacklist_server now bl server)).2
              (some e)).result,
           server :: (get_client_loop fac connect bt now servers rs fuel (k + 1)
              (_pick_server bt now (rs k) servers (_blacklist_server now bl server)).1
              (_pick_server bt now (rs k) servers (_blacklist_server now bl server)).2
              (some e)).attempts,
           (get_client_loop fac connect bt now servers rs fuel (k + 1)
              (_pick_server bt now (rs k) servers (_blacklist_server now bl server)).1
              (_pick_server bt now (rs k) servers (_blacklist_server now bl server)).2
              (some e)).bl⟩
      ∧ _blacklist_server now bl server server = some now) := by
  constructor
  · intro eno hconn hne
    have hret : retryable (SockErr.error eno) = false := by
      simp [retryable, hne]
    simp [get_client_loop, hconn, hret]
  · intro e hconn hret
    refine ⟨?_, by simp [_blacklist_server]⟩
    simp [get_client_loop, hconn, hret]

/-- Witness for C1 at a concrete non-retryable errno (5 = EIO): the error is
re-raised with a single attempt and an unchanged blacklist. -/
theorem C1_connect_error_classification_witness :
    get_client_loop (fun env _ => ⟨env, 4⟩) (fun _ => some (SockErr.error 5))
        60 0 [0] (fun _ => 0) 1 1 (some 0) (fun _ => none) none
      = ⟨Except.error (SockErr.error 5), [0], fun _ => none⟩ :=
  (C1_connect_error_classification (fun env _ => ⟨env, 4⟩)
    (fun _ => some (SockErr.error 5)) 60 0 [0] (fun _ => 0) 0 1 0
    (fun _ => none) none).1 5 rfl (by decide)

/-- The expiry pass of `_pick_server` is idempotent at a fixed evaluation time. -/
theorem update_blacklist_idem (bt now : Int) (bl : Server → Option Int) :
    update_blacklist bt now (update_blacklist bt now bl) = update_blacklist bt now bl := by
  funext s
  simp only [update_blacklist]
  cases h : bl s with
  | none => rfl
  | some age => by_cases hgt : now - age > bt <;> simp [hgt]

/-- Blacklisting the current server and re-evaluating at the same time removes
exactly that server from the choice list (window nonnegative, blacklist
already expiry-evaluated). -/
theorem choices_after_blacklist (bt now : Int) (servers : List Server)
    (bl : Server → Option Int) (s : Server) (hbt : 0 ≤ bt)
    (hup : update_blacklist bt now bl = bl) :
    pick_choices servers (update_blacklist bt now (_blacklist_server now bl s))
      = (pick_choices servers bl).filter (fun x => !(x == s)) := by
  unfold pick_choices
  rw [List.filter_filter]
  apply List.filter_congr
  intro x _
  by_cases hx : x = s
  · subst hx
    have h0 : ¬(now - now > bt) := by omega
    simp [update_blacklist, _blacklist_server, h0, hbt]
  · have hval : update_blacklist bt now (_blacklist_server now bl s) x
        = update_blacklist bt now bl x := by
      simp [update_blacklist, _blacklist_server, hx]
    rw [hval, hup]
    simp [hx]

/-- Removing a member by filtering strictly shrinks a list. -/
theorem length_filter_ne_lt_of_mem {l : List Server} {s : Server} (h : s ∈ l) :
    (l.filter (fun x => !(x == s))).length < l.length := by
  rw [List.length_filter_lt_length_iff_exists]
  exact ⟨s, h, by simp⟩

/-- `_pick_server` facts: the returned blacklist is the expiry-evaluated one,
`None` is returned exactly from an empty choice list, and a returned server is
a member of the choice list. -/
theorem _pick_server_post (bt now : Int) (r : Nat) (servers : List Server)
    (bl : Server → Option Int) :
    (_pick_server bt now r servers bl).2 = update_blacklist bt now bl
    ∧ ((_pick_server bt now r servers bl).1 = none →
        pick_choices servers (update_blacklist bt now bl) = [])
    ∧ (∀ s, (_pick_server bt now r servers bl).1 = some s →
        s ∈ pick_choices servers (update_blacklist bt now bl)) := by
  refine ⟨?_, ?_, ?_⟩
  · by_cases hc : pick_choices servers (update_blacklist bt now bl) = [] <;>
      simp [_pick_server, hc]
  · intro h
    by_cases hc : pick_choices servers (update_blacklist bt now bl) = []
    · exact hc
    · simp [_pick_server, hc] at h
  · intro s h
    by_cases hc : pick_choices servers (update_blacklist bt now bl) = []
    · simp [_pick_server, hc] at h
    · simp only [_pick_server, dif_neg hc, Option.some.injEq] at h
      rw [← h]
      exact List.get_mem _ _ _

/-- The loop exits as soon as the current server is `None`, raising the last
recorded error or the no-servers timeout. -/
theorem get_client_loop_none (fac : Server → Server → Client)
    (connect : Server → Option SockErr) (bt now : Int) (servers : List Server)
    (rs : Nat → Nat) (fuel k : Nat) (bl : Server → Option Int)
    (lastErr : Option SockErr) :
    get_client_loop fac connect bt now servers rs fuel k none bl lastErr
      = ⟨Except.error (lastErr.getD (SockErr.timeout "No server left in the pool")), [], bl⟩ := by
  cases fuel <;> rfl

/-- One retryable failing iteration of the loop: blacklist the current server,
pick again, record the error, recurse, and log the attempt. -/
theorem get_client_loop_retry_step (fac : Server → Server → Client)
    (connect : Server → Option SockErr) (bt now : Int) (servers : List Server)
    (rs : Nat → Nat) (n k : Nat) (s : Server) (bl : Server → Option Int)
    (lastErr : Option SockErr) (e : SockErr)
    (hconn : connect s = some e) (hret : retryable e = true) :
    get_client_loop fac connect bt now servers rs (n + 1) k (some s) bl lastErr
      = ⟨(get_client_loop fac connect bt now servers rs n (k + 1)
            (_pick_server bt now (rs k) servers (_blacklist_server now bl s)).1
            (_pick_server bt now (rs k) servers (_blacklist_server now bl s)).2
            (some e)).result,
         s :: (get_client_loop fac connect bt now servers rs n (k + 1)
            (_pick_server bt now (rs k) servers (_blacklist_server now bl s)).1
            (_pick_server bt now (rs k) servers (_blacklist_server now bl s)).2
            (some e)).attempts,
         (get_client_loop fac connect bt now servers rs n (k + 1)
            (_pick_server bt now (rs k) servers (_blacklist_server now bl s)).1
            (_pick_server bt now (rs k) servers (_blacklist_server now bl s)).2
            (some e)).bl⟩ := by
  simp [get_client_loop, hconn, hret]

/-- Exhaustion behavior of the retry loop when every configured server fails
with a retryable error: every server of the current choice list is attempted,
an empty attempt log yields the recorded/default error, and otherwise the
error of the last attempted server is raised. -/
theorem get_client_loop_all_fail (fac : Server → Server → Client)
    (connect : Server → Option SockErr) (bt now : Int) (servers : List Server)
    (rs : Nat → Nat) (hbt : 0 ≤ bt)
    (hfail : ∀ s ∈ servers, ∃ e, connect s = some e ∧ retryable e = true) :
    ∀ fuel k srv? (bl : Server → Option Int) lastErr,
      update_blacklist bt now bl = bl →
      (srv? = none → pick_choices servers bl = []) →
      (∀ s, srv? = some s → s ∈ pick_choices servers bl) →
      (∀ s, srv? = some s → (pick_choices servers bl).length ≤ fuel) →
      (∀ x ∈ pick_choices servers bl,
        x ∈ (get_client_loop fac connect bt now servers rs fuel k srv? bl lastErr).attempts)
      ∧ ((get_client_loop fac connect bt now servers rs fuel k srv? bl lastErr).attempts = [] →
        (get_client_loop fac connect bt now servers rs fuel k srv? bl lastErr).result
          = Except.error (lastErr.getD (SockErr.timeout "No server left in the pool")))
      ∧ (∀ a, (get_client_loop fac connect bt now servers rs fuel k srv? bl
            lastErr).attempts.getLast? = some a →
        ∃ e, connect a = some e
          ∧ (get_client_loop fac connect bt now servers rs fuel k srv? bl lastErr).result
              = Except.error e) := by
  intro fuel
  induction fuel with
  | zero =>
    intro k srv? bl lastErr hup hnone hsome hlen
    cases srv? with
    | none =>
      rw [get_client_loop_none]
      refine ⟨?_, fun _ => rfl, ?_⟩
      · intro x hx
        rw [hnone rfl] at hx
        exact absurd hx (List.not_mem_nil x)
      · intro a ha
        simp at ha
    | some s =>
      have h1 := hsome s rfl
      have h2 := hlen s rfl
      have h3 : 0 < (pick_choices servers bl).length :=
        List.length_pos.mpr (by
          intro hnil
          rw [hnil] at h1
          exact absurd h1 (List.not_mem_nil s))
      omega
  | succ n ih =>
    intro k srv? bl lastErr hup hnone hsome hlen
    cases srv? with
    | none =>
      rw [get_client_loop_none]
      refine ⟨?_, fun _ => rfl, ?_⟩
      · intro x hx
        rw [hnone rfl] at hx
        exact absurd hx (List.not_mem_nil x)
      · intro a ha
        simp at ha
    | some s =>
      have hs_srv : s ∈ servers := (List.mem_filter.mp (hsome s rfl)).1
      obtain ⟨e, hconn, hret⟩ := hfail s hs_srv
      rw [get_client_loop_retry_step fac connect bt now servers rs n k s bl lastErr e hconn hret]
      dsimp only
      set pk := _pick_server bt now (rs k) servers (_blacklist_server now bl s) with hpkdef
      set out := get_client_loop fac connect bt now servers rs n (k + 1) pk.1 pk.2 (some e)
        with houtdef
      have hpost := _pick_server_post bt now (rs k) servers (_blacklist_server now bl s)
      have hchoices : pick_choices servers pk.2
          = (pick_choices servers bl).filter (fun x => !(x == s)) := by
        rw [hpost.1]
        exact choices_after_blacklist bt now servers bl s hbt hup
      have hup2 : update_blacklist bt now pk.2 = pk.2 := by
        rw [hpost.1]
        exact update_blacklist_idem bt now (_blacklist_server now bl s)
      have hnone2 : pk.1 = none → pick_choices servers pk.2 = [] := by
        intro h
        rw [hpost.1]
        exact hpost.2.1 h
      have hsome2 : ∀ s2, pk.1 = some s2 → s2 ∈ pick_choices servers pk.2 := by
        intro s2 h
        rw [hpost.1]
        exact hpost.2.2 s2 h
      have hlen2 : ∀ s2, pk.1 = some s2 → (pick_choices servers pk.2).length ≤ n := by
        intro s2 _
        have hlt : (pick_choices servers pk.2).length < (pick_choices servers bl).length := by
          rw [hchoices]
          exact length_filter_ne_lt_of_mem (hsome s rfl)
        have hle := hlen s rfl
        omega
      obtain ⟨IH1, IH2, IH3⟩ := ih (k + 1) pk.1 pk.2 (some e) hup2 hnone2 hsome2 hlen2
      refine ⟨?_, ?_, ?_⟩
      · intro x hx
        by_cases hxs : x = s
        · subst hxs
          exact List.mem_cons_self x out.attempts
        · have hx2 : x ∈ pick_choices servers pk.2 := by
            rw [hchoices]
            exact List.mem_filter.mpr ⟨hx, by simp [hxs]⟩
          exact List.mem_cons_of_mem s (IH1 x hx2)
      · intro h
        exact absurd h (by simp)
      · intro a ha
        cases hoa : out.attempts with
        | nil =>
          rw [hoa] at ha
          simp at ha
          subst ha
          exact ⟨e, hconn, IH2 hoa⟩
        | cons b l =>
          rw [hoa] at ha
          rw [List.getLast?_cons_cons] at ha
          exact IH3 a (by rw [hoa]; exact ha)

/-- C2: when the retry loop terminates because `_pick_server` returned `None`
(which, with all connect failures retryable, is the only way it terminates),
the last recorded retryable error is re-raised when one was recorded and
otherwise a socket timeout "No server left in the pool" is raised; and every
currently non-blacklisted server is attempted before the loop gives up. -/
theorem C2_retry_exhaustion (fac : Server → Server → Client)
    (connect : Server → Option SockErr) (bt now : Int) (servers : List Server)
    (rs : Nat → Nat) (bl0 : Server → Option Int) (hbt : 0 ≤ bt)
    (hfail : ∀ s ∈ servers, ∃ e, connect s = some e ∧ retryable e = true) :
    (∀ x ∈ pick_choices servers (update_blacklist bt now bl0),
      x ∈ (_get_client fac connect bt now servers rs bl0).attempts)
    ∧ ((_get_client fac connect bt now servers rs bl0).attempts = [] →
      (_get_client fac connect bt now servers rs bl0).result
        = Except.error (SockErr.timeout "No server left in the pool"))
    ∧ (∀ a, (_get_client fac connect bt now servers rs bl0).attempts.getLast? = some a →
      ∃ e, connect a = some e
        ∧ (_get_client fac connect bt now servers rs bl0).result = Except.error e) := by
  have hg : _get_client fac connect bt now servers rs bl0
      = get_client_loop fac connect bt now servers rs (servers.length + 1) 1
          (_pick_server bt now (rs 0) servers bl0).1
          (_pick_server bt now (rs 0) servers bl0).2 none := rfl
  rw [hg]
  set pk := _pick_server bt now (rs 0) servers bl0 with hpkdef
  have hpost := _pick_server_post bt now (rs 0) servers bl0
  have hup : update_blacklist bt now pk.2 = pk.2 := by
    rw [hpost.1]
    exact update_blacklist_idem bt now bl0
  have hchoices : pick_choices servers pk.2
      = pick_choices servers (update_blacklist bt now bl0) := by
    rw [hpost.1]
  have hnone : pk.1 = none → pick_choices servers pk.2 = [] := by
    intro h
    rw [hchoices]
    exact hpost.2.1 h
  have hsome : ∀ s, pk.1 = some s → s ∈ pick_choices servers pk.2 := by
    intro s h
    rw [hchoices]
    exact hpost.2.2 s h
  have hlen : ∀ s, pk.1 = some s →
      (pick_choices servers pk.2).length ≤ servers.length + 1 := by
    intro s _
    have hle : (pick_choices servers pk.2).length ≤ servers.length := by
      rw [hchoices]
      exact List.length_filter_le _ _
    omega
  obtain ⟨H1, H2, H3⟩ := get_client_loop_all_fail fac connect bt now servers rs hbt hfail
    (servers.length + 1) 1 pk.1 pk.2 none hup hnone hsome hlen
  refine ⟨?_, ?_, H3⟩
  · intro x hx
    exact H1 x (by rw [hchoices]; exact hx)
  · intro h
    exact H2 h

/-- Witness for C2: with servers `[0, 1]`, both always timing out, server 0
(healthy at entry) is among the attempted servers when the loop gives up. -/
theorem C2_retry_exhaustion_witness :
    0 ∈ (_get_client (fun env _ => ⟨env, 4⟩) (fun _ => some (SockErr.timeout "t"))
      60 0 [0, 1] (fun _ => 0) (fun _ => none)).attempts :=
  (C2_retry_exhaustion (fun env _ => ⟨env, 4⟩) (fun _ => some (SockErr.timeout "t"))
    60 0 [0, 1] (fun _ => 0) (fun _ => none) (by decide)
    (fun _ _ => ⟨SockErr.timeout "t", rfl, rfl⟩)).1 0 (by decide)

/-- Two runs of the retry loop whose factories agree on the diagonal — the
only way the loop ever calls them, `create_client(server)` with the enclosing
`server` variable equal to the argument — are identical. -/
theorem get_client_loop_fac_congr (fac1 fac2 : Server → Server → Client)
    (h : ∀ s, fac1 s s = fac2 s s) (connect : Server → Option SockErr)
    (bt now : Int) (servers : List Server) (rs : Nat → Nat) :
    ∀ fuel k srv? (bl : Server → Option Int) lastErr,
      get_client_loop fac1 connect bt now servers rs fuel k srv? bl lastErr
        = get_client_loop fac2 connect bt now servers rs fuel k srv? bl lastErr := by
  intro fuel
  induction fuel with
  | zero =>
    intro k srv? bl lastErr
    cases srv? <;> rfl
  | succ n ih =>
    intro k srv? bl lastErr
    cases srv? with
    | none => rfl
    | some s =>
      cases hconn : connect s with
      | none =>
        simp only [get_client_loop, hconn]
        rw [h s]
      | some e =>
        by_cases hret : retryable e = true
        · simp only [get_client_loop, hconn, hret, if_true]
          rw [ih]
        · simp only [get_client_loop, hconn, if_neg hret]

/-- C10: the fallback `create_client` never uses its formal parameter; the
client it builds is bound to the enclosing `server` variable, which at every
call site equals the argument passed, so the retry loop behaves identically
with the parameter-ignoring fallback factory and with a factory that uses its
parameter. -/
theorem C10_fallback_factory_equivalence (t : Int) (connect : Server → Option SockErr)
    (bt now : Int) (servers : List Server) (rs : Nat → Nat)
    (fuel k : Nat) (srv? : Option Server) (bl : Server → Option Int)
    (lastErr : Option SockErr) :
    (∀ env a b, create_client_nosock t env a = create_client_nosock t env b)
    ∧ (∀ env arg, (create_client_nosock t env arg).server = env)
    ∧ get_client_loop (fun env arg => create_client_nosock t env arg) connect
        bt now servers rs fuel k srv? bl lastErr
      = get_client_loop (fun _env arg => create_client_sock t arg) connect
        bt now servers rs fuel k srv? bl lastErr := by
  refine ⟨fun _ _ _ => rfl, fun _ _ => rfl, ?_⟩
  exact get_client_loop_fac_congr (fun env arg => create_client_nosock t env arg)
    (fun _env arg => create_client_sock t arg) (fun _ => rfl) connect bt now servers rs
    fuel k srv? bl lastErr

/-! ## Dictionary lemmas for `get_many` -/

section DictLemmas

variable {κ ν : Type} [DecidableEq κ]

/-- Updating a key then reading it gives the written value. -/
theorem dget_dset_self (d : List (κ × ν)) (k : κ) (v : ν) :
    dget (dset d k v) k = some v := by
  induction d with
  | nil => simp [dset, dget]
  | cons p d ih =>
    by_cases h : p.1 = k
    · simp [dset, dget, h]
    · simp [dset, dget, h, ih]

/-- Updating one key leaves every other key's value unchanged. -/
theorem dget_dset_ne (d : List (κ × ν)) (k k2 : κ) (v : ν) (h : k2 ≠ k) :
    dget (dset d k v) k2 = dget d k2 := by
  induction d with
  | nil => simp [dset, dget, Ne.symm h]
  | cons p d ih =>
    by_cases hp : p.1 = k
    · have hp2 : p.1 ≠ k2 := by
        rw [hp]
        exact Ne.symm h
      simp [dset, dget, hp, hp2, Ne.symm h]
    · simp [dset, dget, hp, ih]

/-- Every entry of an updated dict is the new pair or an old entry. -/
theorem mem_dset (d : List (κ × ν)) (k : κ) (v : ν) (p : κ × ν)
    (h : p ∈ dset d k v) : p = (k, v) ∨ p ∈ d := by
  induction d with
  | nil =>
    simp [dset] at h
    left
    exact h
  | cons q d ih =>
    by_cases hq : q.1 = k
    · simp only [dset, if_pos hq] at h
      rcases List.mem_cons.mp h with h | h
      · left
        exact h
      · right
        exact List.mem_cons_of_mem q h
    · simp only [dset, if_neg hq] at h
      rcases List.mem_cons.mp h with h | h
      · right
        rw [h]
        exact List.mem_cons_self q d
      · rcases ih h with h | h
        · left
          exact h
        · right
          exact List.mem_cons_of_mem q h

/-- Updating preserves distinctness of the keys. -/
theorem nodup_keys_dset (d : List (κ × ν)) (k : κ) (v : ν)
    (h : (d.map Prod.fst).Nodup) : ((dset d k v).map Prod.fst).Nodup := by
  induction d with
  | nil => simp [dset]
  | cons q d ih =>
    rw [List.map_cons, List.nodup_cons] at h
    by_cases hq : q.1 = k
    · simp only [dset, if_pos hq, List.map_cons, List.nodup_cons]
      rw [← hq]
      exact h
    · simp only [dset, if_neg hq, List.map_cons, List.nodup_cons]
      refine ⟨?_, ih h.2⟩
      intro hmem
      rcases List.mem_map.mp hmem with ⟨p, hp, hpq⟩
      rcases mem_dset d k v p hp with h1 | h1
      · rw [h1] at hpq
        exact hq hpq.symm
      · exact h.1 (List.mem_map.mpr ⟨p, h1, hpq⟩)

/-- A successful lookup comes from an entry of the dict. -/
theorem dget_mem (d : List (κ × ν)) (k : κ) (v : ν)
    (h : dget d k = some v) : (k, v) ∈ d := by
  induction d with
  | nil => simp [dget] at h
  | cons p d ih =>
    by_cases hp : p.1 = k
    · simp only [dget, if_pos hp, Option.some.injEq] at h
      have hpkv : p = (k, v) := by
        obtain ⟨p1, p2⟩ := p
        simp only [Prod.mk.injEq]
        exact ⟨hp, h⟩
      rw [← hpkv]
      exact List.mem_cons_self p d
    · simp only [dget, if_neg hp] at h
      exact List.mem_cons_of_mem p (ih h)

end DictLemmas

/-! ## Characterizations of the `get_many` folds -/

/-- The `ret` dict built by `get_many`'s first loop maps each namespaced key
to the first component of its stored pair, exactly on the visited keys the
store has a value for. -/
theorem ret_fold_dget {V : Type} (store : String → Option (SBytes V × Nat)) :
    ∀ (l : List String) (acc : List (String × SBytes V)) (x : String),
      dget (l.foldl (ret_step store) acc) x
        = if x ∈ l ∧ (store x).isSome = true then (store x).map (fun r => r.1)
          else dget acc x := by
  intro l
  induction l with
  | nil =>
    intro acc x
    simp
  | cons a t ih =>
    intro acc x
    rw [List.foldl_cons, ih]
    by_cases hx : x ∈ t ∧ (store x).isSome = true
    · rw [if_pos hx, if_pos ⟨List.mem_cons_of_mem a hx.1, hx.2⟩]
    · rw [if_neg hx]
      by_cases hxa : x = a
      · subst hxa
        cases hs : store x with
        | none => simp [ret_step, hs]
        | some r => simp [ret_step, hs, dget_dset_self]
      · have hstep : dget (ret_step store acc a) x = dget acc x := by
          cases hs : store a with
          | none => simp [ret_step, hs]
          | some r => simp [ret_step, hs, dget_dset_ne acc a x r.1 hxa]
        rw [hstep]
        have hc : ¬(x ∈ a :: t ∧ (store x).isSome = true) := by
          intro hcc
          rcases List.mem_cons.mp hcc.1 with h | h
          · exact hxa h
          · exact hx ⟨h, hcc.2⟩
        rw [if_neg hc]

/-- Every entry of the `ret` dict has a present store value under its key. -/
theorem ret_fold_isSome {V : Type} (store : String → Option (SBytes V × Nat)) :
    ∀ (l : List String) (acc : List (String × SBytes V)),
      (∀ p ∈ acc, (store p.1).isSome = true) →
      ∀ p ∈ l.foldl (ret_step store) acc, (store p.1).isSome = true := by
  intro l
  induction l with
  | nil =>
    intro acc h
    simpa using h
  | cons a t ih =>
    intro acc h
    rw [List.foldl_cons]
    apply ih
    intro p hp
    cases hs : store a with
    | none =>
      apply h
      simpa [ret_step, hs] using hp
    | some r =>
      simp only [ret_step, hs] at hp
      rcases mem_dset acc a r.1 p hp with h1 | h1
      · rw [h1]
        simp [hs]
      · exact h p h1

/-- The keys of the `ret` dict are distinct. -/
theorem ret_fold_nodup {V : Type} (store : String → Option (SBytes V × Nat)) :
    ∀ (l : List String) (acc : List (String × SBytes V)),
      ((acc.map Prod.fst).Nodup) →
      (((l.foldl (ret_step store) acc).map Prod.fst).Nodup) := by
  intro l
  induction l with
  | nil =>
    intro acc h
    simpa using h
  | cons a t ih =>
    intro acc h
    rw [List.foldl_cons]
    apply ih
    cases hs : store a with
    | none => simpa [ret_step, hs] using h
    | some r =>
      simp only [ret_step, hs]
      exact nodup_keys_dset acc a r.1 h

section ManyLemmas

variable {K V : Type} [DecidableEq K]

/-- Every entry of the reverse-translation dict `m` pairs a key with its
namespaced form. -/
theorem m_fold_mem (mkv : K → String) :
    ∀ (l : List K) (acc : List (String × K)) (p : String × K),
      p ∈ l.foldl (fun a k2 => dset a (mkv k2) k2) acc →
      p ∈ acc ∨ ∃ k2 ∈ l, p = (mkv k2, k2) := by
  intro l
  induction l with
  | nil =>
    intro acc p h
    left
    simpa using h
  | cons a t ih =>
    intro acc p h
    rw [List.foldl_cons] at h
    rcases ih (dset acc (mkv a) a) p h with h1 | h1
    · rcases mem_dset acc (mkv a) a p h1 with h2 | h2
      · right
        exact ⟨a, List.mem_cons_self a t, h2⟩
      · left
        exact h2
    · rcases h1 with ⟨k2, hk2, hp⟩
      right
      exact ⟨k2, List.mem_cons_of_mem a hk2, hp⟩

/-- Looking its own namespaced key up in `m` returns each requested key,
provided no other requested key shares its namespaced form. -/
theorem m_fold_dget_self (mkv : K → String) :
    ∀ (l : List K) (acc : List (String × K)) (k : K),
      (dget acc (mkv k) = some k ∨ k ∈ l) →
      (∀ k2 ∈ l, mkv k2 = mkv k → k2 = k) →
      dget (l.foldl (fun a k2 => dset a (mkv k2) k2) acc) (mkv k) = some k := by
  intro l
  induction l with
  | nil =>
    intro acc k h _
    rcases h with h | h
    · simpa using h
    · exact absurd h (List.not_mem_nil k)
  | cons a t ih =>
    intro acc k h hinj
    rw [List.foldl_cons]
    apply ih
    · by_cases hak : a = k
      · subst hak
        left
        exact dget_dset_self acc (mkv a) a
      · have hne : mkv k ≠ mkv a := fun hh => hak (hinj a (List.mem_cons_self a t) hh.symm)
        rcases h with h | h
        · left
          rw [dget_dset_ne acc (mkv a) (mkv k) a hne]
          exact h
        · rcases List.mem_cons.mp h with h | h
          · exact absurd h.symm hak
          · right
            exact h
    · intro k2 hk2 hmk
      exact hinj k2 (List.mem_cons_of_mem a hk2) hmk

/-- Entries whose reverse translation is not the target key leave the target
key's result untouched in `get_many`'s second loop. -/
theorem res_fold_skip (m : List (String × K)) :
    ∀ (l : List (String × SBytes V)) (acc : List (K × V)) (k : K),
      (∀ p ∈ l, ∀ o, dget m p.1 = some o → o ≠ k) →
      dget (l.foldl (res_step m) acc) k = dget acc k := by
  intro l
  induction l with
  | nil =>
    intro acc k _
    rfl
  | cons p t ih =>
    intro acc k h
    rw [List.foldl_cons, ih _ _ (fun q hq => h q (List.mem_cons_of_mem p hq))]
    cases hm : dget m p.1 with
    | none => simp [res_step, hm]
    | some o =>
      have hok : o ≠ k := h p (List.mem_cons_self p t) o hm
      simp [res_step, hm, dget_dset_ne acc o k (unserialize p.2) (Ne.symm hok)]

/-- The unique entry of `ret` that reverse-translates to the target key gives
that key its unserialized value in `get_many`'s second loop. -/
theorem res_fold_hit (m : List (String × K)) :
    ∀ (l : List (String × SBytes V)) (acc : List (K × V)) (k : K)
      (nk0 : String) (v0 : SBytes V),
      ((l.map Prod.fst).Nodup) →
      (nk0, v0) ∈ l →
      dget m nk0 = some k →
      (∀ nk o, dget m nk = some o → o = k → nk = nk0) →
      dget (l.foldl (res_step m) acc) k = some (unserialize v0) := by
  intro l
  induction l with
  | nil =>
    intro acc k nk0 v0 _ hmem _ _
    exact absurd hmem (List.not_mem_nil _)
  | cons p t ih =>
    intro acc k nk0 v0 hnodup hmem hm htr
    obtain ⟨p1, p2⟩ := p
    rw [List.map_cons, List.nodup_cons] at hnodup
    rcases List.mem_cons.mp hmem with heq | hmem2
    · rw [Prod.mk.injEq] at heq
      obtain ⟨h1, h2⟩ := heq
      subst h1
      subst h2
      have hskip : ∀ q ∈ t, ∀ o, dget m q.1 = some o → o ≠ k := by
        intro q hq o hqo hok
        have hq1 : q.1 = nk0 := htr q.1 o hqo hok
        apply hnodup.1
        rw [← hq1]
        exact List.mem_map.mpr ⟨q, hq, rfl⟩
      have hstep : res_step m acc (nk0, v0) = dset acc k (unserialize v0) := by
        simp [res_step, hm]
      rw [List.foldl_cons, hstep, res_fold_skip m t _ k hskip]
      exact dget_dset_self acc k (unserialize v0)
    · rw [List.foldl_cons]
      exact ih (res_step m acc (p1, p2)) k nk0 v0 hnodup.2 hmem2 hm htr

/-- Full lookup characterization of `get_many`'s result expression: the
returned dict maps exactly the requested keys the store has a value for, each
to its unserialized stored bytes. -/
theorem get_many_spec_aux (mkv : K → String) (store : String → Option (SBytes V × Nat))
    (keys : List K)
    (hinj : ∀ a ∈ keys, ∀ b ∈ keys, mkv a = mkv b → a = b) (k : K) :
    dget ((if ((keys.map mkv).foldl (ret_step store) []).isEmpty then []
          else ((keys.map mkv).foldl (ret_step store) []).foldl
            (res_step (keys.foldl (fun acc k2 => dset acc (mkv k2) k2) [])) []) : List (K × V)) k
      = if k ∈ keys then (store (mkv k)).map (fun r => unserialize r.1) else none := by
  have hA : ∀ x, dget ((keys.map mkv).foldl (ret_step store) []) x
      = if x ∈ keys.map mkv ∧ (store x).isSome = true
        then (store x).map (fun r => r.1) else none := by
    intro x
    rw [ret_fold_dget store (keys.map mkv) [] x,
      show dget ([] : List (String × SBytes V)) x = none from rfl]
  have hSome : ∀ p ∈ (keys.map mkv).foldl (ret_step store) [],
      (store p.1).isSome = true :=
    ret_fold_isSome store (keys.map mkv) []
      (fun p hp => absurd hp (List.not_mem_nil p))
  have hNodup : (((keys.map mkv).foldl (ret_step store) []).map Prod.fst).Nodup :=
    ret_fold_nodup store (keys.map mkv) [] (by simp)
  have hM1 : ∀ nk o, dget (keys.foldl (fun a k2 => dset a (mkv k2) k2) []) nk = some o →
      o ∈ keys ∧ mkv o = nk := by
    intro nk o h
    have hmem := dget_mem _ _ _ h
    rcases m_fold_mem mkv keys [] (nk, o) hmem with h1 | h1
    · exact absurd h1 (List.not_mem_nil _)
    · rcases h1 with ⟨k2, hk2, hp⟩
      rw [Prod.mk.injEq] at hp
      obtain ⟨h2, h3⟩ := hp
      subst h3
      exact ⟨hk2, h2.symm⟩
  have hM2 : ∀ k2 ∈ keys,
      dget (keys.foldl (fun a k3 => dset a (mkv k3) k3) []) (mkv k2) = some k2 := by
    intro k2 hk2
    apply m_fold_dget_self mkv keys [] k2 (Or.inr hk2)
    intro k3 hk3 hmk
    exact hinj k3 hk3 k2 hk2 hmk
  by_cases hk : k ∈ keys
  · rw [if_pos hk]
    cases hs : store (mkv k) with
    | some r =>
      have hretk : dget ((keys.map mkv).foldl (ret_step store) []) (mkv k) = some r.1 := by
        rw [hA (mkv k),
          if_pos ⟨List.mem_map_of_mem mkv hk, by simp [hs]⟩, hs]
        rfl
      have hmem : (mkv k, r.1) ∈ (keys.map mkv).foldl (ret_step store) [] :=
        dget_mem _ _ _ hretk
      have hne : ((keys.map mkv).foldl (ret_step store) []).isEmpty = false := by
        cases hb : ((keys.map mkv).foldl (ret_step store) []).isEmpty
        · rfl
        · rw [List.isEmpty_iff] at hb
          rw [hb] at hmem
          exact absurd hmem (List.not_mem_nil _)
      have htr : ∀ nk o,
          dget (keys.foldl (fun a k3 => dset a (mkv k3) k3) []) nk = some o →
          o = k → nk = mkv k := by
        intro nk o h1 h2
        rcases hM1 nk o h1 with ⟨_, h3⟩
        rw [← h3, h2]
      rw [if_neg (by simp [hne]),
        res_fold_hit (keys.foldl (fun a k3 => dset a (mkv k3) k3) [])
          ((keys.map mkv).foldl (ret_step store) []) [] k (mkv k) r.1
          hNodup hmem (hM2 k hk) htr]
      rfl
    | none =>
      have hskip : ∀ p ∈ (keys.map mkv).foldl (ret_step store) [], ∀ o,
          dget (keys.foldl (fun a k3 => dset a (mkv k3) k3) []) p.1 = some o →
          o ≠ k := by
        intro p hp o h1 h2
        subst h2
        rcases hM1 p.1 o h1 with ⟨_, h3⟩
        have h4 := hSome p hp
        rw [← h3, hs] at h4
        simp at h4
      by_cases hE : ((keys.map mkv).foldl (ret_step store) []).isEmpty
      · rw [if_pos hE]
        rfl
      · rw [if_neg hE,
          res_fold_skip (keys.foldl (fun a k3 => dset a (mkv k3) k3) [])
            ((keys.map mkv).foldl (ret_step store) []) [] k hskip]
        rfl
  · rw [if_neg hk]
    have hskip : ∀ p ∈ (keys.map mkv).foldl (ret_step store) [], ∀ o,
        dget (keys.foldl (fun a k3 => dset a (mkv k3) k3) []) p.1 = some o →
        o ≠ k := by
      intro p hp o h1 h2
      subst h2
      exact hk (hM1 p.1 o h1).1
    by_cases hE : ((keys.map mkv).foldl (ret_step store) []).isEmpty
    · rw [if_pos hE]
      rfl
    · rw [if_neg hE,
        res_fold_skip (keys.foldl (fun a k3 => dset a (mkv k3) k3) [])
          ((keys.map mkv).foldl (ret_step store) []) [] k hskip]
      rfl

end ManyLemmas

/-- `zip(map(f, l), l)` pairs each element with its image. -/
theorem zip_map_self {α β : Type} (f : α → β) (l : List α) :
    (l.map f).zip l = l.map (fun k => (f k, k)) := by
  induction l with
  | nil => rfl
  | cons a t ih => rw [List.map_cons, List.map_cons, List.zip_cons_cons, ih]

/-- C6: with `make_key` injective over the requested keys, `get_many` returns
a mapping whose domain is exactly the subset of the caller's keys present on
the server, each mapped back (through the reverse of the namespacing) to its
unserialized stored value; absent keys are simply omitted, with no error and
no default. -/
theorem C6_get_many_exact_domain {K V : Type} [DecidableEq K]
    (mk : K → Option Nat → String) (store : String → Option (SBytes V × Nat))
    (keys : List K) (version : Option Nat)
    (hinj : ∀ a ∈ keys, ∀ b ∈ keys, mk a version = mk b version → a = b) :
    (∀ k ∈ keys, dget (get_many mk store keys version) k
        = (store (mk k version)).map (fun r => unserialize r.1))
    ∧ (∀ k, k ∉ keys → dget (get_many mk store keys version) k = none) := by
  have hzip : (keys.map (fun x => mk x version)).zip keys
      = keys.map (fun k => (mk k version, k)) := zip_map_self (fun x => mk x version) keys
  have hm_eq : ((keys.map (fun x => mk x version)).zip keys).foldl
      (fun acc p => dset acc p.1 p.2) ([] : List (String × K))
      = keys.foldl (fun acc k2 => dset acc (mk k2 version) k2) [] := by
    rw [hzip, List.foldl_map]
  have hgm : get_many mk store keys version
      = (if ((keys.map (fun x => mk x version)).foldl (ret_step store) []).isEmpty then []
        else ((keys.map (fun x => mk x version)).foldl (ret_step store) []).foldl
          (res_step (keys.foldl (fun acc k2 => dset acc (mk k2 version) k2) [])) []) := by
    rw [← hm_eq]
    rfl
  constructor
  · intro k hk
    rw [hgm, get_many_spec_aux (fun x => mk x version) store keys hinj k, if_pos hk]
  · intro k hk
    rw [hgm, get_many_spec_aux (fun x => mk x version) store keys hinj k, if_neg hk]

/-- Witness for C6: one present and one absent key; the present key maps to
its unserialized value and the absent key is omitted. -/
theorem C6_get_many_exact_domain_witness :
    dget (get_many (fun (k : Nat) (_ : Option Nat) => if k = 0 then "a" else "b")
        (fun nk => if nk = "a" then some (serialize 42, 0) else none)
        [0, 1] none) 0
      = some 42 := by
  have h := (C6_get_many_exact_domain
    (fun (k : Nat) (_ : Option Nat) => if k = 0 then "a" else "b")
    (fun nk => if nk = "a" then some (serialize 42, 0) else none)
    [0, 1] none (by decide)).1 0 (by decide)
  rw [h]
  rfl

end Memcachepool
